import Mathlib

/-!
Verification of the core of `cloud-profiler-java`: the memory-interval index
(`src/memory_info.h`) and the profile proto builder (`src/proto.cc`),
shallowly embedded in Lean 4.

Machine integers (`uintptr_t`, `uint64_t`) are modelled as `Nat` together
with explicit `% 2^64` where wraparound could matter; signed `int64_t`
values (counts, weights, attributes, line numbers) are modelled as `Int`.
Stateful C++ objects become explicit state records threaded through
functions.
-/

namespace CloudProfiler

/-- The modulus of 64-bit unsigned arithmetic. -/
def u64Mod : Nat := 2 ^ 64

/-! ## Memory-interval index (`src/memory_info.h`) -/

/-- `enum IntervalType { COMPILED_CODE, NATIVE }`. -/
inductive IntervalType where
  | COMPILED_CODE
  | NATIVE
deriving DecidableEq

/-- `struct MemoryInterval`: start address, length, a type tag, the
compiled-method id (a `jmethodID`, modelled as `Nat`) and a native name.
The default constructor zero-initializes every field. -/
structure MemoryInterval where
  start : Nat
  length : Nat
  interval_type : IntervalType
  method_id : Nat
  name : String
deriving DecidableEq

/-- The value produced by `MemoryInterval()`: start 0, length 0,
`COMPILED_CODE`, method id 0, empty name — the "not found" sentinel. -/
def MemoryInterval.sentinel : MemoryInterval :=
  { start := 0, length := 0, interval_type := .COMPILED_CODE, method_id := 0, name := "" }

/-- `MemoryInterval::Contains(other)`: `other >= start && other - start < length`
in unsigned 64-bit arithmetic.  The subtraction is modelled with the explicit
wraparound `(other + 2^64 - start) % 2^64`; it is only reached when
`other >= start` holds (the `&&` short-circuits). -/
def MemoryInterval.Contains (i : MemoryInterval) (other : Nat) : Bool :=
  decide (other ≥ i.start) && decide ((other + u64Mod - i.start) % u64Mod < i.length)

/-- Exact-integer half-open membership `start <= p < start + length`, the
mathematical reading of the interval — used to compare against the code's
`Contains`. -/
def inInterval (i : MemoryInterval) (p : Nat) : Prop :=
  i.start ≤ p ∧ p < i.start + i.length

instance (i : MemoryInterval) (p : Nat) : Decidable (inInterval i p) := by
  unfold inInterval; infer_instance

/-- `MemoryInfo::memory_ranges_` is a `std::vector<MemoryInterval>`; we model
the state as the list of tracked intervals in insertion order (the mutex only
serializes access and is invisible to the sequential semantics). -/
abbrev MemoryRanges := List MemoryInterval

/-- `MemoryInfo::AddExecutableMemoryRange(start, length, method_id)`: appends
a `COMPILED_CODE` interval (name left at its default `""`). -/
def AddExecutableMemoryRange (ranges : MemoryRanges) (start length method_id : Nat) :
    MemoryRanges :=
  ranges ++ [{ start := start, length := length, interval_type := .COMPILED_CODE,
               method_id := method_id, name := "" }]

/-- `MemoryInfo::AddNativeMemoryRange(start, length, name)`: appends a
`NATIVE` interval carrying an owned copy of `name` (method id left at its
default 0). -/
def AddNativeMemoryRange (ranges : MemoryRanges) (start length : Nat) (name : String) :
    MemoryRanges :=
  ranges ++ [{ start := start, length := length, interval_type := .NATIVE,
               method_id := 0, name := name }]

/-- `MemoryInfo::RemoveExecutableMemoryRange(start, method_id)`: erases the
first interval (in insertion order) whose `start` and `method_id` both match,
then breaks; a no-op when none matches. -/
def RemoveExecutableMemoryRange (ranges : MemoryRanges) (start method_id : Nat) :
    MemoryRanges :=
  match ranges with
  | [] => []
  | r :: rest =>
      if r.start = start ∧ r.method_id = method_id then rest
      else r :: RemoveExecutableMemoryRange rest start method_id

/-- `MemoryInfo::GetMemoryInterval(point)`: scans the intervals in insertion
order and returns the first whose `Contains(point)` holds; returns the
default-constructed sentinel when none does. -/
def GetMemoryInterval (ranges : MemoryRanges) (point : Nat) : MemoryInterval :=
  match ranges with
  | [] => MemoryInterval.sentinel
  | r :: rest => if r.Contains point then r else GetMemoryInterval rest point

/-- `MemoryInfo::Count()`: the number of currently tracked intervals. -/
def Count (ranges : MemoryRanges) : Nat := ranges.length

/-- A single operation on the memory-interval index, for stating invariants
over arbitrary operation sequences. -/
inductive MemOp where
  | addExec (start length method_id : Nat)
  | addNative (start length : Nat) (name : String)
  | removeExec (start method_id : Nat)

/-- Apply one index operation to the tracked ranges. -/
def applyMemOp (ranges : MemoryRanges) : MemOp → MemoryRanges
  | .addExec s l m => AddExecutableMemoryRange ranges s l m
  | .addNative s l n => AddNativeMemoryRange ranges s l n
  | .removeExec s m => RemoveExecutableMemoryRange ranges s m

/-- Apply a sequence of index operations in order. -/
def applyMemOps (ranges : MemoryRanges) (ops : List MemOp) : MemoryRanges :=
  ops.foldl applyMemOp ranges

/-- An operation supplies a positive length (trivially true for removals). -/
def MemOp.lengthPos : MemOp → Prop
  | .addExec _ l _ => 0 < l
  | .addNative _ l _ => 0 < l
  | .removeExec _ _ => True

instance (op : MemOp) : Decidable op.lengthPos := by
  cases op <;> { unfold MemOp.lengthPos; infer_instance }

/-- Two intervals are disjoint when no point lies in both (in the
exact-integer reading). -/
def intervalsDisjoint (a b : MemoryInterval) : Prop :=
  ∀ q : Nat, ¬ (inInterval a q ∧ inInterval b q)

/-! ## Profile proto builder (`src/proto.cc`)

The builder's string table is abstracted away: a `builder_.StringId(s)`
reference is modelled by the string `s` itself (interning is injective, so
nothing about ids is lost).  The `perftools::profiles` message types are
modelled by records holding exactly the fields the code sets. -/

/-- First-match lookup in an association list; models lookup in the C++
`unordered_map` / `std::map` members (entries are only ever inserted for
absent keys, so the representation is faithful). -/
def lookupKey {α β : Type} [DecidableEq α] : List (α × β) → α → Option β
  | [], _ => none
  | (k, v) :: rest, a => if k = a then some v else lookupKey rest a

/-- A `perftools::profiles::ValueType` (two interned strings). -/
structure ValueType where
  type : String
  unit : String

/-- A `perftools::profiles::Label` as set by `AddSample`: interned key and
the raw `int64` attribute value stored via `set_str`. -/
structure Label where
  key : String
  str : Int

/-- A `perftools::profiles::Sample`: repeated values, repeated location ids,
repeated labels, in the order the code adds them. -/
structure Sample where
  value : List Int
  location_id : List Nat
  label : List Label

/-- A `perftools::profiles::Line` record on a location. -/
structure ProtoLine where
  function_id : Nat
  line : Int

/-- A `perftools::profiles::Location`: the code sets `id` and either
`address` (native path, no line records) or one `Line` record (managed
path, address left at its default 0). -/
structure Location where
  id : Nat
  address : Nat
  line : List ProtoLine

/-- A `perftools::profiles::Mapping` as emitted by `Populate`. -/
structure ProtoMapping where
  id : Nat
  memory_start : Nat
  memory_limit : Nat
  filename : String

/-- The key under which `perftools::profiles::Builder::FunctionId`
deduplicates functions: `(name, system_name, file, start_line)` as passed at
`proto.cc:155` — simplified name, full frame name, file name, start line 0. -/
structure FunctionKey where
  name : String
  system_name : String
  file_name : String
  start_line : Int
deriving DecidableEq

/-- An entry of `nativeInfo.Mappings()` consumed by `Populate`. -/
structure NativeMapping where
  start : Nat
  limit : Nat
  name : String

/-- The state of one `ProfileProtoBuilder` instance: the accumulating
profile fields the code sets, the two dedup maps `line_map_` and
`address_location_`, the function table held by the underlying builder, and
the running totals. -/
structure BuilderState where
  period_type : ValueType
  period : Int
  sample_type : List ValueType
  duration_nanos : Int
  samples : List Sample
  locations : List Location
  functions : List (FunctionKey × Nat)
  line_map : List ((Nat × Int) × Nat)
  address_location : List (Nat × Nat)
  mappings : List ProtoMapping
  total_count : Int
  total_weight : Int

/-- The freshly constructed builder: every profile field empty / zero. -/
def initialBuilder : BuilderState :=
  { period_type := ⟨"", ""⟩, period := 0, sample_type := [], duration_nanos := 0,
    samples := [], locations := [], functions := [], line_map := [],
    address_location := [], mappings := [], total_count := 0, total_weight := 0 }

/-- Modelled from the spec: `SimplifyFunctionName`
(`third_party/javaprofiler/stacktrace_fixer.h`) is not under `src/`; the
spec only says a "simplified display name" is derived from the frame name,
and no claim depends on more than it being a deterministic function, so it
is modelled as the identity. -/
def SimplifyFunctionName (frame_name : String) : String := frame_name

/-- Modelled from the spec: `perftools::profiles::Builder::FunctionId` is not
under `src/`.  Per the spec it deduplicates by
`(simplified_name, frame_name, file_name, start_line)` and assigns dense
1-based ids, `id = currentTableSize + 1` at first insertion. -/
def functionId (b : BuilderState) (name system_name file_name : String)
    (start_line : Int) : Nat × BuilderState :=
  match lookupKey b.functions ⟨name, system_name, file_name, start_line⟩ with
  | some fid => (fid, b)
  | none =>
      (b.functions.length + 1,
       { b with functions := b.functions ++
          [(⟨name, system_name, file_name, start_line⟩, b.functions.length + 1)] })

/-- `ProfileProtoBuilder::LocationID(uint64_t address)` (`proto.cc:118`):
look up `address_location_[address]` (absent keys read as 0); a non-zero hit
is returned as-is; otherwise the id `location_size() + 1` is assigned,
recorded in the map, and a new `Location` with that id and the raw address
is appended to the profile. -/
def locationIDAddress (b : BuilderState) (address : Nat) : Nat × BuilderState :=
  if (lookupKey b.address_location address).getD 0 ≠ 0 then
    ((lookupKey b.address_location address).getD 0, b)
  else
    (b.locations.length + 1,
     { b with
        address_location := b.address_location ++
          [(address, b.locations.length + 1)],
        locations := b.locations ++
          [{ id := b.locations.length + 1, address := address, line := [] }] })

/-- The frame name built at `proto.cc:142`: `class_name + "."` when the
class is non-empty, then `method_name`, then `signature` when non-empty. -/
def frameName (class_name method_name signature : String) : String :=
  let fn := if class_name ≠ "" then class_name ++ "." else ""
  let fn := fn ++ method_name
  if signature ≠ "" then fn ++ signature else fn

/-- The function key a managed frame resolves through (simplified name, full
frame name, file name, start line 0 — as at `proto.cc:155`). -/
def managedFunctionKey (class_name method_name signature file_name : String) :
    FunctionKey :=
  let fn := frameName class_name method_name signature
  ⟨SimplifyFunctionName fn, fn, file_name, 0⟩

/-- The location-dedup half of the managed `LocationID` (`proto.cc:158`):
dedup by `(function_id, line_number)` through `line_map_`; on a miss, assign
id `location_size() + 1`, record the map entry, and append a `Location` with
one `Line` record. -/
def locationIDLine (function_id : Nat) (b : BuilderState) (line_number : Int) :
    Nat × BuilderState :=
  match lookupKey b.line_map (function_id, line_number) with
  | some existing => (existing, b)
  | none =>
      (b.locations.length + 1,
       { b with
          line_map := b.line_map ++
            [((function_id, line_number), b.locations.length + 1)],
          locations := b.locations ++
            [{ id := b.locations.length + 1, address := 0,
               line := [{ function_id := function_id, line := line_number }] }] })

/-- `ProfileProtoBuilder::LocationID(class, method, signature, file, line)`
(`proto.cc:135`): build the frame name, obtain a function id from the
underlying builder, then dedup the location by `(function_id, line_number)`. -/
def locationIDManaged (b : BuilderState)
    (class_name method_name signature file_name : String) (line_number : Int) :
    Nat × BuilderState :=
  locationIDLine
    (functionId b (SimplifyFunctionName (frameName class_name method_name signature))
      (frameName class_name method_name signature) file_name 0).1
    (functionId b (SimplifyFunctionName (frameName class_name method_name signature))
      (frameName class_name method_name signature) file_name 0).2
    line_number

/-- A raw stack frame after symbol resolution.  In the source a
`JVMPI_CallFrame` whose `lineno` equals `kNativeFrameLineNum` takes the
native path with the raw `method_id` reinterpreted as an address
(`proto.cc:104`); any other frame is resolved by the external
`GetStackFrameElements` + `FixMethodParameters` helpers into the managed
tuple.  Those helpers are outside `src/`, so frames are embedded already
resolved, exactly as the spec's RawFrame data model describes. -/
inductive RawFrame where
  | native (address : Nat)
  | managed (class_name method_name signature file_name : String) (line_number : Int)

/-- `ProfileProtoBuilder::LocationID(const JVMPI_CallFrame &)` dispatching on
the frame kind. -/
def locationIDFrame (b : BuilderState) : RawFrame → Nat × BuilderState
  | .native address => locationIDAddress b address
  | .managed c m s f l => locationIDManaged b c m s f l

/-- The label list `AddSample` attaches (`proto.cc:227`): one label with
interned key `"attr"` and `attr` as value exactly when `attr != 0`. -/
def sampleLabel (attr : Int) : List Label :=
  if attr ≠ 0 then [{ key := "attr", str := attr }] else []

/-- `ProfileProtoBuilder::AddSample` (`proto.cc:212`): append one sample with
values `[count, weight]`, the given location ids in order, and the label list
determined by `attr`; update the running totals. -/
def AddSample (b : BuilderState) (locations : List Nat)
    (count weight attr : Int) : BuilderState :=
  { b with
      samples := b.samples ++
        [{ value := [count, weight], location_id := locations,
           label := sampleLabel attr }],
      total_count := b.total_count + count,
      total_weight := b.total_weight + weight }

/-- `ProfileProtoBuilder::AddArtificialSample` (`proto.cc:92`): one-frame
sample whose location resolves `("", name, "", "", 0)` through the managed
path. -/
def AddArtificialSample (b : BuilderState) (name : String)
    (count weight attr : Int) : BuilderState :=
  let lb := locationIDManaged b "" name "" "" 0
  AddSample lb.2 [lb.1] count weight attr

/-- A trace key of the `TraceMultiset`: ordered frames plus the attribute. -/
structure TraceKey where
  frames : List RawFrame
  attr : Int

/-- Resolve a list of frames to location ids in order, threading the builder
state (the `locations.push_back(LocationID(frame))` loop of `Populate`). -/
def resolveFrames (b : BuilderState) : List RawFrame → List Nat × BuilderState
  | [] => ([], b)
  | f :: rest =>
      let r := locationIDFrame b f
      let rs := resolveFrames r.2 rest
      (r.1 :: rs.1, rs.2)

/-- The per-trace loop of `Populate` (`proto.cc:192`): entries with count 0
are skipped; otherwise the frames are resolved in order and one sample with
values `[count, count * period_ns]` and the trace's attribute is added. -/
def populateTraces (b : BuilderState) (traces : List (TraceKey × Int))
    (period_ns : Int) : BuilderState :=
  match traces with
  | [] => b
  | (t, count) :: rest =>
      if count ≠ 0 then
        populateTraces
          (AddSample (resolveFrames b t.frames).2 (resolveFrames b t.frames).1
            count (count * period_ns) t.attr)
          rest period_ns
      else
        populateTraces b rest period_ns

/-- The mapping loop of `Populate` (`proto.cc:203`): each native mapping is
appended with `id = mapping_size()` measured after the append, i.e. the
1-based position. -/
def addMappings (b : BuilderState) (ms : List NativeMapping) : BuilderState :=
  match ms with
  | [] => b
  | m :: rest =>
      addMappings
        { b with mappings := b.mappings ++
            [{ id := b.mappings.length + 1, memory_start := m.start,
               memory_limit := m.limit, filename := m.name }] }
        rest

/-- `ProfileProtoBuilder::Populate` (`proto.cc:174`): set the period type to
`(profile_type, "nanoseconds")` and the period, declare the two sample value
dimensions, set the duration, run the per-trace loop, then emit the native
mappings. -/
def Populate (b : BuilderState) (profile_type : String)
    (traces : List (TraceKey × Int)) (duration_ns period_ns : Int)
    (native_mappings : List NativeMapping) : BuilderState :=
  let b := { b with
      period_type := ⟨profile_type, "nanoseconds"⟩,
      period := period_ns,
      sample_type := b.sample_type ++
        [⟨"sample", "count"⟩, ⟨profile_type, "nanoseconds"⟩],
      duration_nanos := duration_ns }
  let b := populateTraces b traces period_ns
  addMappings b native_mappings

/-- The observable profile content.  Modelled from the spec:
`Builder::Emit` (serialization to wire bytes) is not under `src/`; the
serialized output is modelled by the profile value it encodes. -/
structure Profile where
  period_type : ValueType
  period : Int
  sample_type : List ValueType
  duration_nanos : Int
  sample : List Sample
  location : List Location
  mapping : List ProtoMapping

/-- Read the accumulated profile out of the builder (`Emit`). -/
def Emit (b : BuilderState) : Profile :=
  { period_type := b.period_type, period := b.period,
    sample_type := b.sample_type, duration_nanos := b.duration_nanos,
    sample := b.samples, location := b.locations, mapping := b.mappings }

/-- An entry of the `extra_frames` vector of `SerializeAndClearJavaCpuTraces`
(a `FrameCount`: synthetic counter name and value). -/
structure FrameCount where
  name : String
  value : Int

/-- `SerializeAndClearJavaCpuTraces` (`proto.cc:234`): construct one builder,
`Populate` it with the traces, add one artificial sample per extra frame
with weight `value * period_ns` and attribute 0, clear the source multiset,
and return the emitted profile.  The returned pair is (emitted profile,
trace multiset after the call). -/
def SerializeAndClearJavaCpuTraces (native_mappings : List NativeMapping)
    (profile_type : String) (extra_frames : List FrameCount)
    (duration_ns period_ns : Int) (traces : List (TraceKey × Int)) :
    Profile × List (TraceKey × Int) :=
  let b := initialBuilder
  let b := Populate b profile_type traces duration_ns period_ns native_mappings
  let b := extra_frames.foldl
    (fun b f => AddArtificialSample b f.name f.value (f.value * period_ns) 0) b
  (Emit b, [])

/-! ### Builder-state well-formedness and extension -/

/-- The invariant of every reachable builder state: location ids are dense
(the `k`-th created location has id `k + 1`), and both dedup maps are sound —
each entry points at a location of the profile whose content matches the
dedup key (`address_location_` entries at an address-only location,
`line_map_` entries at a location with the single matching line record). -/
structure WFB (b : BuilderState) : Prop where
  dense : ∀ k (hk : k < b.locations.length), (b.locations.get ⟨k, hk⟩).id = k + 1
  addr_sound : ∀ a v, lookupKey b.address_location a = some v →
      ∃ loc ∈ b.locations, loc.id = v ∧ loc.address = a ∧ loc.line = []
  line_sound : ∀ fid l v, lookupKey b.line_map (fid, l) = some v →
      ∃ loc ∈ b.locations, loc.id = v ∧ loc.line = [⟨fid, l⟩]

/-- One builder state extends another: the location table and all three
dedup tables only ever grow by appending. -/
structure BExt (b b' : BuilderState) : Prop where
  locations : ∃ t, b'.locations = b.locations ++ t
  functions : ∃ t, b'.functions = b.functions ++ t
  line_map : ∃ t, b'.line_map = b.line_map ++ t
  address_location : ∃ t, b'.address_location = b.address_location ++ t

/-! ### Frame resolution -/

/-- A location of builder state `b` represents a raw frame: a native frame's
location carries exactly the raw address and no line records; a managed
frame's location carries one line record whose function id is the one the
builder's function table assigns to the frame's derived function key. -/
def frameMatches (b : BuilderState) (fr : RawFrame) (loc : Location) : Prop :=
  match fr with
  | .native a => loc.address = a ∧ loc.line = []
  | .managed c m s f l =>
      ∃ fid, lookupKey b.functions (managedFunctionKey c m s f) = some fid
        ∧ loc.line = [{ function_id := fid, line := l }]

/-- The entries of the trace multiset that `Populate` actually encodes: those
whose count is non-zero (`proto.cc:194`). -/
def nonZeroTraces (traces : List (TraceKey × Int)) : List (TraceKey × Int) :=
  traces.filter (fun tc => decide (tc.2 ≠ 0))

/-- The sample recorded for one non-zero multiset entry, as observed against
the final builder state `P`: values `[count, count * p]`, the label list
determined by the trace's attribute, and one location id per frame in the
trace's order, each id naming a location of `P` that represents the
corresponding frame. -/
def sampleForTrace (P : BuilderState) (p : Int) (tc : TraceKey × Int)
    (s : Sample) : Prop :=
  s.value = [tc.2, tc.2 * p]
  ∧ s.label = sampleLabel tc.1.attr
  ∧ s.location_id.length = tc.1.frames.length
  ∧ ∀ j (hj1 : j < s.location_id.length) (hj2 : j < tc.1.frames.length),
      ∃ loc ∈ P.locations, loc.id = s.location_id.get ⟨j, hj1⟩
        ∧ frameMatches P (tc.1.frames.get ⟨j, hj2⟩) loc

/-! ### Encoder operation sequences (one `ProfileProtoBuilder` instance) -/

/-- One state-mutating call on a single encoder instance: a frame resolution,
an artificial sample, a raw `AddSample`, or a full `Populate` pass. -/
inductive EncOp where
  | frame (fr : RawFrame)
  | artificial (name : String) (count weight attr : Int)
  | sample (locs : List Nat) (count weight attr : Int)
  | populate (profile_type : String) (traces : List (TraceKey × Int))
      (duration_ns period_ns : Int) (maps : List NativeMapping)

/-- Apply one encoder operation. -/
def applyEnc (b : BuilderState) : EncOp → BuilderState
  | .frame fr => (locationIDFrame b fr).2
  | .artificial n c w a => AddArtificialSample b n c w a
  | .sample ls c w a => AddSample b ls c w a
  | .populate pt ts d p ms => Populate b pt ts d p ms

/-- Apply a sequence of encoder operations in order. -/
def applyEncs (b : BuilderState) (ops : List EncOp) : BuilderState :=
  ops.foldl applyEnc b

/-! ## Theorems -/

/-! ### Lemmas about the memory-interval index -/

theorem contains_iff_inInterval (i : MemoryInterval) (p : Nat) (hp : p < u64Mod) :
    i.Contains p = true ↔ inInterval i p := by
  unfold MemoryInterval.Contains inInterval
  simp only [Bool.and_eq_true, decide_eq_true_eq, ge_iff_le]
  by_cases hps : i.start ≤ p
  · have hd : p - i.start < u64Mod := lt_of_le_of_lt (Nat.sub_le p i.start) hp
    have hkey : p + u64Mod - i.start = u64Mod + (p - i.start) := by
      rw [Nat.add_comm p u64Mod, Nat.add_sub_assoc hps]
    rw [hkey, Nat.add_mod_left, Nat.mod_eq_of_lt hd]
    constructor
    · rintro ⟨_, h2⟩
      exact ⟨hps, (Nat.sub_lt_iff_lt_add hps).mp h2⟩
    · rintro ⟨_, h2⟩
      exact ⟨hps, (Nat.sub_lt_iff_lt_add hps).mpr h2⟩
  · constructor
    · rintro ⟨h1, _⟩
      exact absurd h1 hps
    · rintro ⟨h1, _⟩
      exact absurd h1 hps

theorem contains_length_pos {i : MemoryInterval} {p : Nat} (h : i.Contains p = true) :
    0 < i.length := by
  unfold MemoryInterval.Contains at h
  simp only [Bool.and_eq_true, decide_eq_true_eq] at h
  exact lt_of_le_of_lt (Nat.zero_le _) h.2

theorem contains_false_of_length_zero (i : MemoryInterval) (p : Nat) (h : i.length = 0) :
    i.Contains p = false := by
  unfold MemoryInterval.Contains
  simp [h]

theorem getMemoryInterval_of_all_false (ranges : MemoryRanges) (p : Nat)
    (h : ∀ i ∈ ranges, i.Contains p = false) :
    GetMemoryInterval ranges p = MemoryInterval.sentinel := by
  induction ranges with
  | nil => rfl
  | cons r rest ih =>
      unfold GetMemoryInterval
      rw [h r (List.mem_cons_self r rest)]
      exact ih (fun i hi => h i (List.mem_cons_of_mem r hi))

theorem getMemoryInterval_cases (ranges : MemoryRanges) (p : Nat) :
    GetMemoryInterval ranges p = MemoryInterval.sentinel
    ∨ (GetMemoryInterval ranges p ∈ ranges
       ∧ (GetMemoryInterval ranges p).Contains p = true) := by
  induction ranges with
  | nil => exact Or.inl rfl
  | cons r rest ih =>
      unfold GetMemoryInterval
      by_cases h : r.Contains p
      · rw [if_pos h]
        exact Or.inr ⟨List.mem_cons_self r rest, h⟩
      · rw [if_neg h]
        rcases ih with h1 | ⟨h1, h2⟩
        · exact Or.inl h1
        · exact Or.inr ⟨List.mem_cons_of_mem r h1, h2⟩

theorem getMemoryInterval_first (ranges : MemoryRanges) (p : Nat)
    (k : Nat) (hk : k < ranges.length)
    (hc : (ranges.get ⟨k, hk⟩).Contains p = true)
    (hb : ∀ j (hj : j < k), (ranges.get ⟨j, hj.trans hk⟩).Contains p = false) :
    GetMemoryInterval ranges p = ranges.get ⟨k, hk⟩ := by
  induction ranges generalizing k with
  | nil => exact absurd hk (Nat.not_lt_zero k)
  | cons r rest ih =>
      unfold GetMemoryInterval
      cases k with
      | zero =>
          simp only [List.get] at hc
          rw [if_pos hc]
          rfl
      | succ k =>
          have h0 : r.Contains p = false := hb 0 (Nat.succ_pos k)
          rw [if_neg (by simp [h0])]
          exact ih k (Nat.lt_of_succ_lt_succ hk) hc
            (fun j hj => hb (j + 1) (Nat.succ_lt_succ hj))

theorem mem_of_mem_remove {ranges : MemoryRanges} {s m : Nat} {r : MemoryInterval}
    (h : r ∈ RemoveExecutableMemoryRange ranges s m) : r ∈ ranges := by
  induction ranges with
  | nil => exact absurd h (List.not_mem_nil r)
  | cons q rest ih =>
      unfold RemoveExecutableMemoryRange at h
      by_cases hm : q.start = s ∧ q.method_id = m
      · rw [if_pos hm] at h
        exact List.mem_cons_of_mem q h
      · rw [if_neg hm] at h
        rcases List.mem_cons.mp h with h1 | h1
        · exact h1 ▸ List.mem_cons_self q rest
        · exact List.mem_cons_of_mem q (ih h1)

theorem remove_of_no_match (ranges : MemoryRanges) (s m : Nat)
    (h : ∀ r ∈ ranges, ¬ (r.start = s ∧ r.method_id = m)) :
    RemoveExecutableMemoryRange ranges s m = ranges := by
  induction ranges with
  | nil => rfl
  | cons q rest ih =>
      unfold RemoveExecutableMemoryRange
      rw [if_neg (h q (List.mem_cons_self q rest))]
      rw [ih (fun r hr => h r (List.mem_cons_of_mem q hr))]

theorem remove_first_match (pre : MemoryRanges) (r : MemoryInterval) (post : MemoryRanges)
    (s m : Nat) (hs : r.start = s) (hm : r.method_id = m)
    (hpre : ∀ q ∈ pre, ¬ (q.start = s ∧ q.method_id = m)) :
    RemoveExecutableMemoryRange (pre ++ r :: post) s m = pre ++ post := by
  induction pre with
  | nil =>
      unfold RemoveExecutableMemoryRange
      simp [hs, hm]
  | cons q rest ih =>
      have hq : ¬ (q.start = s ∧ q.method_id = m) := hpre q (List.mem_cons_self q rest)
      simp only [List.cons_append]
      unfold RemoveExecutableMemoryRange
      rw [if_neg hq, ih (fun x hx => hpre x (List.mem_cons_of_mem q hx))]

theorem remove_count_of_match (ranges : MemoryRanges) (s m : Nat)
    (h : ∃ r ∈ ranges, r.start = s ∧ r.method_id = m) :
    Count (RemoveExecutableMemoryRange ranges s m) + 1 = Count ranges := by
  induction ranges with
  | nil => simp at h
  | cons q rest ih =>
      unfold RemoveExecutableMemoryRange
      by_cases hq : q.start = s ∧ q.method_id = m
      · rw [if_pos hq]
        simp [Count]
      · rw [if_neg hq]
        rcases h with ⟨r, hr, hmatch⟩
        rcases List.mem_cons.mp hr with h1 | h1
        · exact absurd (h1 ▸ hmatch) hq
        · have := ih ⟨r, h1, hmatch⟩
          simp only [Count, List.length_cons] at *
          rw [this]

theorem length_pos_invariant_aux (init : MemoryRanges) (ops : List MemOp)
    (hinit : ∀ r ∈ init, 0 < r.length) (hops : ∀ op ∈ ops, op.lengthPos) :
    ∀ r ∈ applyMemOps init ops, 0 < r.length := by
  induction ops generalizing init with
  | nil => exact hinit
  | cons op rest ih =>
      have hop : op.lengthPos := hops op (List.mem_cons_self op rest)
      have hrest : ∀ o ∈ rest, o.lengthPos :=
        fun o ho => hops o (List.mem_cons_of_mem op ho)
      have hstep : ∀ r ∈ applyMemOp init op, 0 < r.length := by
        cases op with
        | addExec s l m =>
            intro r hr
            rcases List.mem_append.mp hr with h1 | h1
            · exact hinit r h1
            · simp only [List.mem_singleton] at h1
              subst h1
              exact hop
        | addNative s l n =>
            intro r hr
            rcases List.mem_append.mp hr with h1 | h1
            · exact hinit r h1
            · simp only [List.mem_singleton] at h1
              subst h1
              exact hop
        | removeExec s m =>
            intro r hr
            exact hinit r (mem_of_mem_remove hr)
      exact ih (applyMemOp init op) hstep hrest

/-! ### Claim theorems for the memory-interval index -/

/-- C10: for every interval and every 64-bit point `p`, the code's
containment test `Contains(p)` (computed as `p >= start && p - start < length`
in unsigned 64-bit arithmetic) agrees with the exact-integer half-open
membership `start <= p < start + length`; an interval of length 0 contains
no point; consequently `GetMemoryInterval` returns either the zero-length
not-found sentinel or a tracked interval of positive length that contains
`p`. -/
theorem contains_exact_no_overflow (i : MemoryInterval) (p : Nat) (hp : p < u64Mod) :
    (i.Contains p = true ↔ inInterval i p)
    ∧ (i.length = 0 → i.Contains p = false)
    ∧ (∀ ranges : MemoryRanges,
        GetMemoryInterval ranges p = MemoryInterval.sentinel
        ∨ (GetMemoryInterval ranges p ∈ ranges
           ∧ 0 < (GetMemoryInterval ranges p).length
           ∧ (GetMemoryInterval ranges p).Contains p = true)) := by
  refine ⟨contains_iff_inInterval i p hp, contains_false_of_length_zero i p, ?_⟩
  intro ranges
  rcases getMemoryInterval_cases ranges p with h | ⟨h1, h2⟩
  · exact Or.inl h
  · exact Or.inr ⟨h1, contains_length_pos h2, h2⟩

/-- Witness for C10 at a concrete interval and point. -/
theorem contains_exact_no_overflow_witness :
    (MemoryInterval.mk 10 5 .COMPILED_CODE 1 "").Contains 12 = true
      ↔ inInterval (MemoryInterval.mk 10 5 .COMPILED_CODE 1 "") 12 :=
  (contains_exact_no_overflow (MemoryInterval.mk 10 5 .COMPILED_CODE 1 "") 12
    (by norm_num [u64Mod])).1

/-- C1: `GetMemoryInterval p` scans the tracked ranges in insertion order and
returns the first range whose half-open interval `[start, start + length)`
contains `p`; when no tracked range contains `p` it returns the not-found
sentinel (start 0, length 0); when the tracked ranges are pairwise disjoint
it returns the unique range containing `p`. -/
theorem getMemoryInterval_first_match (ranges : MemoryRanges) (p : Nat) (hp : p < u64Mod) :
    ((∀ i ∈ ranges, ¬ inInterval i p) →
        GetMemoryInterval ranges p = MemoryInterval.sentinel)
    ∧ (∀ k (hk : k < ranges.length),
        inInterval (ranges.get ⟨k, hk⟩) p →
        (∀ j (hj : j < k), ¬ inInterval (ranges.get ⟨j, hj.trans hk⟩) p) →
        GetMemoryInterval ranges p = ranges.get ⟨k, hk⟩)
    ∧ (List.Pairwise intervalsDisjoint ranges →
        ∀ i ∈ ranges, inInterval i p → GetMemoryInterval ranges p = i) := by
  refine ⟨?_, ?_, ?_⟩
  · intro h
    refine getMemoryInterval_of_all_false ranges p (fun i hi => ?_)
    have := h i hi
    rcases hb : i.Contains p with _ | _
    · rfl
    · exact absurd ((contains_iff_inInterval i p hp).mp hb) this
  · intro k hk hc hb
    refine getMemoryInterval_first ranges p k hk
      ((contains_iff_inInterval _ p hp).mpr hc) (fun j hj => ?_)
    have := hb j hj
    rcases hcj : (ranges.get ⟨j, hj.trans hk⟩).Contains p with _ | _
    · rfl
    · exact absurd ((contains_iff_inInterval _ p hp).mp hcj) this
  · intro hdisj i hi hin
    induction ranges with
    | nil => exact absurd hi (List.not_mem_nil i)
    | cons r rest ih =>
        unfold GetMemoryInterval
        rcases List.mem_cons.mp hi with h1 | h1
        · subst h1
          rw [if_pos ((contains_iff_inInterval i p hp).mpr hin)]
        · have hd : intervalsDisjoint r i := (List.pairwise_cons.mp hdisj).1 i h1
          have hr : r.Contains p = false := by
            rcases hb : r.Contains p with _ | _
            · rfl
            · exact absurd ⟨(contains_iff_inInterval r p hp).mp hb, hin⟩ (hd p)
          rw [if_neg (by simp [hr])]
          exact ih (List.pairwise_cons.mp hdisj).2 h1

/-- Witness for C1: with two tracked ranges both containing the point, the
first inserted one wins. -/
theorem getMemoryInterval_first_match_witness :
    GetMemoryInterval
      [MemoryInterval.mk 10 5 .COMPILED_CODE 1 "",
       MemoryInterval.mk 12 4 .NATIVE 0 "libc"] 12
      = MemoryInterval.mk 10 5 .COMPILED_CODE 1 "" := by
  have h := getMemoryInterval_first_match
    [MemoryInterval.mk 10 5 .COMPILED_CODE 1 "",
     MemoryInterval.mk 12 4 .NATIVE 0 "libc"] 12 (by norm_num [u64Mod])
  exact h.2.1 0 (by norm_num) (by decide) (fun j hj => absurd hj (Nat.not_lt_zero j))

/-- C6: `RemoveExecutableMemoryRange(start, id)` removes exactly the first
tracked range (in insertion order) matching both `start` and `method_id`, and
is a no-op when no range matches; `Count` decreases by exactly one when a
match existed and is unchanged otherwise; after the removal, `GetMemoryInterval`
returns the sentinel at every point only the removed range covered. -/
theorem removeExecutableMemoryRange_spec (ranges : MemoryRanges) (s m : Nat) :
    ((∀ r ∈ ranges, ¬ (r.start = s ∧ r.method_id = m)) →
        RemoveExecutableMemoryRange ranges s m = ranges
        ∧ Count (RemoveExecutableMemoryRange ranges s m) = Count ranges)
    ∧ ((∃ r ∈ ranges, r.start = s ∧ r.method_id = m) →
        Count (RemoveExecutableMemoryRange ranges s m) + 1 = Count ranges)
    ∧ (∀ pre r post, ranges = pre ++ r :: post →
        r.start = s → r.method_id = m →
        (∀ q ∈ pre, ¬ (q.start = s ∧ q.method_id = m)) →
        RemoveExecutableMemoryRange ranges s m = pre ++ post
        ∧ (∀ p : Nat, (∀ q ∈ pre ++ post, q.Contains p = false) →
            GetMemoryInterval (RemoveExecutableMemoryRange ranges s m) p
              = MemoryInterval.sentinel)) := by
  refine ⟨?_, remove_count_of_match ranges s m, ?_⟩
  · intro h
    exact ⟨remove_of_no_match ranges s m h, by rw [remove_of_no_match ranges s m h]⟩
  · intro pre r post hr hs hm hpre
    subst hr
    have heq := remove_first_match pre r post s m hs hm hpre
    refine ⟨heq, fun p hp => ?_⟩
    rw [heq]
    exact getMemoryInterval_of_all_false (pre ++ post) p hp

/-- Witness for C6 at a concrete index state: removing the first of two
matching ranges. -/
theorem removeExecutableMemoryRange_spec_witness :
    RemoveExecutableMemoryRange
      [MemoryInterval.mk 10 5 .COMPILED_CODE 1 "",
       MemoryInterval.mk 10 5 .COMPILED_CODE 1 "",
       MemoryInterval.mk 30 2 .COMPILED_CODE 2 ""] 10 1
      = [MemoryInterval.mk 10 5 .COMPILED_CODE 1 "",
         MemoryInterval.mk 30 2 .COMPILED_CODE 2 ""] := by
  have h := (removeExecutableMemoryRange_spec
    [MemoryInterval.mk 10 5 .COMPILED_CODE 1 "",
     MemoryInterval.mk 10 5 .COMPILED_CODE 1 "",
     MemoryInterval.mk 30 2 .COMPILED_CODE 2 ""] 10 1).2.2
      [] (MemoryInterval.mk 10 5 .COMPILED_CODE 1 "")
      [MemoryInterval.mk 10 5 .COMPILED_CODE 1 "",
       MemoryInterval.mk 30 2 .COMPILED_CODE 2 ""]
      rfl rfl rfl (fun q hq => absurd hq (List.not_mem_nil q))
  exact h.1

/-- C9 counterexample: a compiled range of length 0 is accepted and stored by
`AddExecutableMemoryRange`, so the invariant "every tracked range has
positive length" fails after the one-operation sequence `addExec 5 0 7`. -/
theorem length_zero_range_stored :
    ¬ (∀ r ∈ applyMemOps [] [MemOp.addExec 5 0 7], 0 < r.length) := by decide

/-- C9 (amended): when every insertion supplies a positive length, every
range tracked by the index after any sequence of add/remove operations has
positive length — the index preserves the invariant but does not enforce it
on insertion. -/
theorem length_pos_invariant (ops : List MemOp)
    (hops : ∀ op ∈ ops, op.lengthPos) :
    ∀ r ∈ applyMemOps [] ops, 0 < r.length :=
  length_pos_invariant_aux [] ops (fun r hr => absurd hr (List.not_mem_nil r)) hops

/-- Witness for the amended C9 on a concrete operation sequence. -/
theorem length_pos_invariant_witness :
    0 < (MemoryInterval.mk 100 32 .NATIVE 0 "libc").length :=
  length_pos_invariant
    [MemOp.addExec 10 5 1, MemOp.addNative 100 32 "libc", MemOp.removeExec 10 1]
    (by decide)
    (MemoryInterval.mk 100 32 .NATIVE 0 "libc") (by decide)

/-! ### Association-list lookup lemmas -/

theorem lookupKey_append_some {α β : Type} [DecidableEq α]
    {xs : List (α × β)} (ys : List (α × β)) {a : α} {v : β}
    (h : lookupKey xs a = some v) : lookupKey (xs ++ ys) a = some v := by
  induction xs with
  | nil => simp [lookupKey] at h
  | cons x rest ih =>
      rcases x with ⟨k, w⟩
      by_cases hk : k = a
      · simp only [lookupKey, if_pos hk] at h
        simp [lookupKey, if_pos hk, h]
      · simp only [lookupKey, if_neg hk] at h
        simpa [lookupKey, if_neg hk] using ih h

theorem lookupKey_append_none {α β : Type} [DecidableEq α]
    {xs : List (α × β)} (ys : List (α × β)) {a : α}
    (h : lookupKey xs a = none) : lookupKey (xs ++ ys) a = lookupKey ys a := by
  induction xs with
  | nil => rfl
  | cons x rest ih =>
      rcases x with ⟨k, w⟩
      by_cases hk : k = a
      · simp [lookupKey, if_pos hk] at h
      · simp only [lookupKey, if_neg hk] at h
        simpa [lookupKey, if_neg hk] using ih h

theorem lookupKey_single_self {α β : Type} [DecidableEq α] (a : α) (v : β) :
    lookupKey [(a, v)] a = some v := by
  simp [lookupKey]

theorem lookupKey_single_other {α β : Type} [DecidableEq α] {a a0 : α} (v : β)
    (h : a ≠ a0) : lookupKey [(a, v)] a0 = none := by
  simp [lookupKey, h]

theorem bext_refl (b : BuilderState) : BExt b b :=
  ⟨⟨[], by simp⟩, ⟨[], by simp⟩, ⟨[], by simp⟩, ⟨[], by simp⟩⟩

theorem bext_trans {a b c : BuilderState} (h1 : BExt a b) (h2 : BExt b c) :
    BExt a c := by
  obtain ⟨⟨t1, e1⟩, ⟨t2, e2⟩, ⟨t3, e3⟩, ⟨t4, e4⟩⟩ := h1
  obtain ⟨⟨u1, f1⟩, ⟨u2, f2⟩, ⟨u3, f3⟩, ⟨u4, f4⟩⟩ := h2
  exact ⟨⟨t1 ++ u1, by rw [f1, e1, List.append_assoc]⟩,
         ⟨t2 ++ u2, by rw [f2, e2, List.append_assoc]⟩,
         ⟨t3 ++ u3, by rw [f3, e3, List.append_assoc]⟩,
         ⟨t4 ++ u4, by rw [f4, e4, List.append_assoc]⟩⟩

theorem bext_mem_locations {b b' : BuilderState} (h : BExt b b')
    {loc : Location} (hm : loc ∈ b.locations) : loc ∈ b'.locations := by
  obtain ⟨t, e⟩ := h.locations
  rw [e]
  exact List.mem_append_left t hm

theorem bext_lookup_functions {b b' : BuilderState} (h : BExt b b')
    {k : FunctionKey} {v : Nat} (hl : lookupKey b.functions k = some v) :
    lookupKey b'.functions k = some v := by
  obtain ⟨t, e⟩ := h.functions
  rw [e]
  exact lookupKey_append_some t hl

theorem bext_lookup_line_map {b b' : BuilderState} (h : BExt b b')
    {k : Nat × Int} {v : Nat} (hl : lookupKey b.line_map k = some v) :
    lookupKey b'.line_map k = some v := by
  obtain ⟨t, e⟩ := h.line_map
  rw [e]
  exact lookupKey_append_some t hl

theorem bext_lookup_address {b b' : BuilderState} (h : BExt b b')
    {a v : Nat} (hl : lookupKey b.address_location a = some v) :
    lookupKey b'.address_location a = some v := by
  obtain ⟨t, e⟩ := h.address_location
  rw [e]
  exact lookupKey_append_some t hl

theorem wfb_initial : WFB initialBuilder := by
  refine ⟨?_, ?_, ?_⟩
  · intro k hk
    simp [initialBuilder] at hk
  · intro a v h
    simp [initialBuilder, lookupKey] at h
  · intro fid l v h
    simp [initialBuilder, lookupKey] at h

theorem list_get_congr {α : Type} {l l' : List α} (h : l = l') {k : Nat}
    (hk : k < l.length) (hk' : k < l'.length) :
    l.get ⟨k, hk⟩ = l'.get ⟨k, hk'⟩ := by
  subst h
  rfl

theorem list_get_append_last {α : Type} (l : List α) (x : α)
    (hk : l.length < (l ++ [x]).length) :
    (l ++ [x]).get ⟨l.length, hk⟩ = x := by
  induction l with
  | nil => rfl
  | cons a rest ih => simpa using ih (by simp)

/-- Transport `WFB` across a state whose locations and dedup maps agree. -/
theorem wfb_congr {b b' : BuilderState} (h : WFB b)
    (hloc : b'.locations = b.locations)
    (haddr : b'.address_location = b.address_location)
    (hline : b'.line_map = b.line_map) : WFB b' := by
  refine ⟨?_, ?_, ?_⟩
  · intro k hk
    have hk' : k < b.locations.length := by rw [← hloc]; exact hk
    rw [list_get_congr hloc hk hk']
    exact h.dense k hk'
  · intro a v hl
    rw [haddr] at hl
    obtain ⟨loc, hm, rest⟩ := h.addr_sound a v hl
    exact ⟨loc, by rw [hloc]; exact hm, rest⟩
  · intro fid l v hl
    rw [hline] at hl
    obtain ⟨loc, hm, rest⟩ := h.line_sound fid l v hl
    exact ⟨loc, by rw [hloc]; exact hm, rest⟩

/-- Appending a location with the next dense id preserves density. -/
theorem dense_append {locs : List Location} {loc : Location}
    (h : ∀ k (hk : k < locs.length), (locs.get ⟨k, hk⟩).id = k + 1)
    (hid : loc.id = locs.length + 1) :
    ∀ k (hk : k < (locs ++ [loc]).length),
      ((locs ++ [loc]).get ⟨k, hk⟩).id = k + 1 := by
  intro k hk
  have hk' : k < locs.length + 1 := by
    simpa using hk
  by_cases hlt : k < locs.length
  · rw [List.get_append k hlt]
    exact h k hlt
  · have hke : k = locs.length :=
      Nat.le_antisymm (Nat.lt_succ_iff.mp hk') (Nat.le_of_not_lt hlt)
    subst hke
    rw [list_get_append_last locs loc hk]
    exact hid

/-- Every location of a well-formed builder has a positive id. -/
theorem id_pos_of_mem {b : BuilderState} (h : WFB b) {loc : Location}
    (hm : loc ∈ b.locations) : 0 < loc.id := by
  obtain ⟨⟨k, hk⟩, hget⟩ := List.mem_iff_get.mp hm
  have := h.dense k hk
  rw [hget] at this
  exact this ▸ Nat.succ_pos k

/-- In a well-formed builder, a location is determined by its id. -/
theorem loc_unique {b : BuilderState} (h : WFB b) {l1 l2 : Location}
    (h1 : l1 ∈ b.locations) (h2 : l2 ∈ b.locations) (hid : l1.id = l2.id) :
    l1 = l2 := by
  obtain ⟨⟨k1, hk1⟩, hg1⟩ := List.mem_iff_get.mp h1
  obtain ⟨⟨k2, hk2⟩, hg2⟩ := List.mem_iff_get.mp h2
  have e1 := h.dense k1 hk1
  have e2 := h.dense k2 hk2
  rw [hg1] at e1
  rw [hg2] at e2
  have hsucc : k1 + 1 = k2 + 1 := by rw [← e1, ← e2, hid]
  have : k1 = k2 := Nat.add_right_cancel hsucc
  subst this
  rw [← hg1, ← hg2]

/-! ### Behaviour of the dedup operations -/

theorem functionId_none {b : BuilderState} {n sn f : String} {sl : Int}
    (hl : lookupKey b.functions ⟨n, sn, f, sl⟩ = none) :
    functionId b n sn f sl =
      (b.functions.length + 1,
       { b with functions := b.functions ++
          [(⟨n, sn, f, sl⟩, b.functions.length + 1)] }) := by
  unfold functionId
  rw [hl]

theorem functionId_some {b : BuilderState} {n sn f : String} {sl : Int} {fid : Nat}
    (hl : lookupKey b.functions ⟨n, sn, f, sl⟩ = some fid) :
    functionId b n sn f sl = (fid, b) := by
  unfold functionId
  rw [hl]

theorem functionId_spec (b : BuilderState) (n sn f : String) (sl : Int) :
    (functionId b n sn f sl).2.locations = b.locations
    ∧ (functionId b n sn f sl).2.line_map = b.line_map
    ∧ (functionId b n sn f sl).2.address_location = b.address_location
    ∧ (functionId b n sn f sl).2.samples = b.samples
    ∧ (∃ t, (functionId b n sn f sl).2.functions = b.functions ++ t)
    ∧ lookupKey (functionId b n sn f sl).2.functions ⟨n, sn, f, sl⟩
        = some (functionId b n sn f sl).1 := by
  rcases hl : lookupKey b.functions ⟨n, sn, f, sl⟩ with _ | fid
  · rw [functionId_none hl]
    refine ⟨rfl, rfl, rfl, rfl, ⟨_, rfl⟩, ?_⟩
    rw [lookupKey_append_none _ hl]
    exact lookupKey_single_self _ _
  · rw [functionId_some hl]
    exact ⟨rfl, rfl, rfl, rfl, ⟨[], by simp⟩, hl⟩

theorem locationIDAddress_none {b : BuilderState} {a : Nat}
    (hl : lookupKey b.address_location a = none) :
    locationIDAddress b a =
      (b.locations.length + 1,
       { b with
          address_location := b.address_location ++
            [(a, b.locations.length + 1)],
          locations := b.locations ++
            [{ id := b.locations.length + 1, address := a, line := [] }] }) := by
  unfold locationIDAddress
  rw [hl]
  simp

theorem locationIDAddress_some {b : BuilderState} {a v : Nat}
    (hl : lookupKey b.address_location a = some v) (hv : v ≠ 0) :
    locationIDAddress b a = (v, b) := by
  unfold locationIDAddress
  rw [hl]
  simp [hv]

theorem locationIDAddress_spec (b : BuilderState) (a : Nat) (hb : WFB b) :
    WFB (locationIDAddress b a).2
    ∧ BExt b (locationIDAddress b a).2
    ∧ (locationIDAddress b a).2.samples = b.samples
    ∧ (locationIDAddress b a).2.functions = b.functions
    ∧ (locationIDAddress b a).2.line_map = b.line_map
    ∧ lookupKey (locationIDAddress b a).2.address_location a
        = some (locationIDAddress b a).1
    ∧ (∃ loc ∈ (locationIDAddress b a).2.locations,
        loc.id = (locationIDAddress b a).1 ∧ loc.address = a ∧ loc.line = [])
    ∧ (lookupKey b.address_location a = none →
        (locationIDAddress b a).1 = b.locations.length + 1
        ∧ (locationIDAddress b a).2.locations = b.locations ++
            [{ id := b.locations.length + 1, address := a, line := [] }])
    ∧ (∀ v, lookupKey b.address_location a = some v →
        (locationIDAddress b a).1 = v ∧ (locationIDAddress b a).2 = b) := by
  rcases hl : lookupKey b.address_location a with _ | v
  · rw [locationIDAddress_none hl]
    refine ⟨?_, ?_, rfl, rfl, rfl, ?_, ?_, ?_, ?_⟩
    · refine ⟨?_, ?_, ?_⟩
      · exact dense_append hb.dense rfl
      · intro a0 v0 hl0
        simp only at hl0
        rcases hl1 : lookupKey b.address_location a0 with _ | w
        · rw [lookupKey_append_none _ hl1] at hl0
          by_cases ha : a = a0
          · subst ha
            rw [lookupKey_single_self] at hl0
            cases hl0
            exact ⟨_, List.mem_append_right _ (List.mem_singleton.mpr rfl),
              rfl, rfl, rfl⟩
          · rw [lookupKey_single_other _ ha] at hl0
            cases hl0
        · rw [lookupKey_append_some _ hl1] at hl0
          obtain ⟨loc, hm, h1, h2, h3⟩ :=
            hb.addr_sound a0 w hl1
          cases hl0
          exact ⟨loc, List.mem_append_left _ hm, h1, h2, h3⟩
      · intro fid l v0 hl0
        simp only at hl0
        obtain ⟨loc, hm, h1, h2⟩ := hb.line_sound fid l v0 hl0
        exact ⟨loc, List.mem_append_left _ hm, h1, h2⟩
    · exact ⟨⟨_, rfl⟩, ⟨[], by simp⟩, ⟨[], by simp⟩, ⟨_, rfl⟩⟩
    · simp only
      rw [lookupKey_append_none _ hl]
      exact lookupKey_single_self _ _
    · exact ⟨_, List.mem_append_right _ (List.mem_singleton.mpr rfl), rfl, rfl, rfl⟩
    · intro _
      exact ⟨rfl, rfl⟩
    · intro v hv
      cases hv
  · have hv : v ≠ 0 := by
      obtain ⟨loc, hm, h1, _, _⟩ := hb.addr_sound a v hl
      have := id_pos_of_mem hb hm
      exact Nat.pos_iff_ne_zero.mp (h1 ▸ this)
    rw [locationIDAddress_some hl hv]
    refine ⟨hb, bext_refl b, rfl, rfl, rfl, hl, ?_, ?_, ?_⟩
    · obtain ⟨loc, hm, h1, h2, h3⟩ := hb.addr_sound a v hl
      exact ⟨loc, hm, h1, h2, h3⟩
    · intro hnone
      cases hnone
    · intro w hw
      cases hw
      exact ⟨rfl, rfl⟩

theorem locationIDLine_none {fid : Nat} {b : BuilderState} {l : Int}
    (hl : lookupKey b.line_map (fid, l) = none) :
    locationIDLine fid b l =
      (b.locations.length + 1,
       { b with
          line_map := b.line_map ++ [((fid, l), b.locations.length + 1)],
          locations := b.locations ++
            [{ id := b.locations.length + 1, address := 0,
               line := [{ function_id := fid, line := l }] }] }) := by
  unfold locationIDLine
  rw [hl]

theorem locationIDLine_some {fid : Nat} {b : BuilderState} {l : Int} {v : Nat}
    (hl : lookupKey b.line_map (fid, l) = some v) :
    locationIDLine fid b l = (v, b) := by
  unfold locationIDLine
  rw [hl]

theorem locationIDLine_spec (fid : Nat) (b : BuilderState) (l : Int) (hb : WFB b) :
    WFB (locationIDLine fid b l).2
    ∧ BExt b (locationIDLine fid b l).2
    ∧ (locationIDLine fid b l).2.samples = b.samples
    ∧ (locationIDLine fid b l).2.functions = b.functions
    ∧ (locationIDLine fid b l).2.address_location = b.address_location
    ∧ lookupKey (locationIDLine fid b l).2.line_map (fid, l)
        = some (locationIDLine fid b l).1
    ∧ (∃ loc ∈ (locationIDLine fid b l).2.locations,
        loc.id = (locationIDLine fid b l).1
        ∧ loc.line = [{ function_id := fid, line := l }])
    ∧ (lookupKey b.line_map (fid, l) = none →
        (locationIDLine fid b l).1 = b.locations.length + 1
        ∧ (locationIDLine fid b l).2.locations = b.locations ++
            [{ id := b.locations.length + 1, address := 0,
               line := [{ function_id := fid, line := l }] }])
    ∧ (∀ v, lookupKey b.line_map (fid, l) = some v →
        (locationIDLine fid b l).1 = v ∧ (locationIDLine fid b l).2 = b) := by
  rcases hl : lookupKey b.line_map (fid, l) with _ | v
  · rw [locationIDLine_none hl]
    refine ⟨?_, ?_, rfl, rfl, rfl, ?_, ?_, ?_, ?_⟩
    · refine ⟨?_, ?_, ?_⟩
      · exact dense_append hb.dense rfl
      · intro a0 v0 hl0
        simp only at hl0
        obtain ⟨loc, hm, h1, h2, h3⟩ := hb.addr_sound a0 v0 hl0
        exact ⟨loc, List.mem_append_left _ hm, h1, h2, h3⟩
      · intro fid0 l0 v0 hl0
        simp only at hl0
        rcases hl1 : lookupKey b.line_map (fid0, l0) with _ | w
        · rw [lookupKey_append_none _ hl1] at hl0
          by_cases hk : ((fid, l) : Nat × Int) = (fid0, l0)
          · rw [← hk] at hl0
            rw [lookupKey_single_self] at hl0
            cases hl0
            rcases Prod.mk.injEq .. ▸ hk with ⟨h1, h2⟩
            subst h1
            subst h2
            exact ⟨_, List.mem_append_right _ (List.mem_singleton.mpr rfl), rfl, rfl⟩
          · rw [lookupKey_single_other _ hk] at hl0
            cases hl0
        · rw [lookupKey_append_some _ hl1] at hl0
          obtain ⟨loc, hm, h1, h2⟩ := hb.line_sound fid0 l0 w hl1
          cases hl0
          exact ⟨loc, List.mem_append_left _ hm, h1, h2⟩
    · exact ⟨⟨_, rfl⟩, ⟨[], by simp⟩, ⟨_, rfl⟩, ⟨[], by simp⟩⟩
    · simp only
      rw [lookupKey_append_none _ hl]
      exact lookupKey_single_self _ _
    · exact ⟨_, List.mem_append_right _ (List.mem_singleton.mpr rfl), rfl, rfl⟩
    · intro _
      exact ⟨rfl, rfl⟩
    · intro v hv
      cases hv
  · rw [locationIDLine_some hl]
    refine ⟨hb, bext_refl b, rfl, rfl, rfl, hl, ?_, ?_, ?_⟩
    · obtain ⟨loc, hm, h1, h2⟩ := hb.line_sound fid l v hl
      exact ⟨loc, hm, h1, h2⟩
    · intro hnone
      cases hnone
    · intro w hw
      cases hw
      exact ⟨rfl, rfl⟩

theorem locationIDManaged_spec (b : BuilderState) (c m s f : String) (l : Int)
    (hb : WFB b) :
    WFB (locationIDManaged b c m s f l).2
    ∧ BExt b (locationIDManaged b c m s f l).2
    ∧ (locationIDManaged b c m s f l).2.samples = b.samples
    ∧ (locationIDManaged b c m s f l).2.address_location = b.address_location
    ∧ (∃ fid, lookupKey (locationIDManaged b c m s f l).2.functions
          (managedFunctionKey c m s f) = some fid
        ∧ lookupKey (locationIDManaged b c m s f l).2.line_map (fid, l)
            = some (locationIDManaged b c m s f l).1
        ∧ ∃ loc ∈ (locationIDManaged b c m s f l).2.locations,
            loc.id = (locationIDManaged b c m s f l).1
            ∧ loc.line = [{ function_id := fid, line := l }])
    ∧ ((locationIDManaged b c m s f l).1 = b.locations.length + 1
        ∧ (∃ loc, (locationIDManaged b c m s f l).2.locations = b.locations ++ [loc]
            ∧ loc.id = (locationIDManaged b c m s f l).1)
       ∨ ((locationIDManaged b c m s f l).2.locations = b.locations
          ∧ ∃ loc ∈ b.locations, loc.id = (locationIDManaged b c m s f l).1)) := by
  have hfb := functionId_spec b
    (SimplifyFunctionName (frameName c m s)) (frameName c m s) f 0
  obtain ⟨hfb1, hfb2, hfb3, hfb4, ⟨tf, hfb5⟩, hfb6⟩ := hfb
  set fb := functionId b (SimplifyFunctionName (frameName c m s)) (frameName c m s) f 0
    with hfbdef
  have hwf2 : WFB fb.2 := wfb_congr hb hfb1 hfb3 hfb2
  have hext2 : BExt b fb.2 :=
    ⟨⟨[], by rw [hfb1, List.append_nil]⟩, ⟨tf, hfb5⟩,
     ⟨[], by rw [hfb2, List.append_nil]⟩, ⟨[], by rw [hfb3, List.append_nil]⟩⟩
  have hline := locationIDLine_spec fb.1 fb.2 l hwf2
  obtain ⟨hl1, hl2, hl3, hl4, hl5, hl6, hl7, hl8, hl9⟩ := hline
  have hmeq : locationIDManaged b c m s f l = locationIDLine fb.1 fb.2 l := rfl
  rw [hmeq]
  refine ⟨hl1, bext_trans hext2 hl2, by rw [hl3, hfb4], by rw [hl5, hfb3], ?_, ?_⟩
  · refine ⟨fb.1, ?_, hl6, hl7⟩
    rw [hl4]
    have : managedFunctionKey c m s f =
        (⟨SimplifyFunctionName (frameName c m s), frameName c m s, f, 0⟩ : FunctionKey) :=
      rfl
    rw [this]
    exact hfb6
  · rcases hlm : lookupKey fb.2.line_map (fb.1, l) with _ | v
    · obtain ⟨he1, he2⟩ := hl8 hlm
      refine Or.inl ⟨?_, ?_⟩
      · rw [he1, hfb1]
      · refine ⟨{ id := fb.2.locations.length + 1, address := 0,
                  line := [{ function_id := fb.1, line := l }] }, ?_, ?_⟩
        · rw [he2, hfb1]
        · rw [he1]
    · obtain ⟨he1, he2⟩ := hl9 v hlm
      refine Or.inr ⟨?_, ?_⟩
      · rw [he2, hfb1]
      · obtain ⟨loc, hm', h1', h2'⟩ := hwf2.line_sound fb.1 l v hlm
        rw [hfb1] at hm'
        exact ⟨loc, hm', by rw [h1', he1]⟩

theorem frameMatches_mono {b b' : BuilderState} (hext : BExt b b')
    {fr : RawFrame} {loc : Location} (h : frameMatches b fr loc) :
    frameMatches b' fr loc := by
  cases fr with
  | native a => exact h
  | managed c m s f l =>
      obtain ⟨fid, h1, h2⟩ := h
      exact ⟨fid, bext_lookup_functions hext h1, h2⟩

theorem locationIDFrame_spec (b : BuilderState) (fr : RawFrame) (hb : WFB b) :
    WFB (locationIDFrame b fr).2
    ∧ BExt b (locationIDFrame b fr).2
    ∧ (locationIDFrame b fr).2.samples = b.samples
    ∧ ∃ loc ∈ (locationIDFrame b fr).2.locations,
        loc.id = (locationIDFrame b fr).1
        ∧ frameMatches (locationIDFrame b fr).2 fr loc := by
  cases fr with
  | native a =>
      obtain ⟨h1, h2, h3, _, _, _, ⟨loc, hm, hid, haddr, hline⟩, _, _⟩ :=
        locationIDAddress_spec b a hb
      exact ⟨h1, h2, h3, loc, hm, hid, haddr, hline⟩
  | managed c m s f l =>
      obtain ⟨h1, h2, h3, _, ⟨fid, hf, _, ⟨loc, hm, hid, hline⟩⟩, _⟩ :=
        locationIDManaged_spec b c m s f l hb
      exact ⟨h1, h2, h3, loc, hm, hid, fid, hf, hline⟩

theorem resolveFrames_spec (b : BuilderState) (frames : List RawFrame)
    (hb : WFB b) :
    WFB (resolveFrames b frames).2
    ∧ BExt b (resolveFrames b frames).2
    ∧ (resolveFrames b frames).2.samples = b.samples
    ∧ (resolveFrames b frames).1.length = frames.length
    ∧ ∀ j (hj1 : j < (resolveFrames b frames).1.length)
        (hj2 : j < frames.length),
        ∃ loc ∈ (resolveFrames b frames).2.locations,
          loc.id = (resolveFrames b frames).1.get ⟨j, hj1⟩
          ∧ frameMatches (resolveFrames b frames).2
              (frames.get ⟨j, hj2⟩) loc := by
  induction frames generalizing b with
  | nil =>
      exact ⟨hb, bext_refl b, rfl, rfl, fun j hj1 hj2 => absurd hj2 (by simp)⟩
  | cons fr rest ih =>
      obtain ⟨hw1, he1, hs1, ⟨loc, hm, hid, hmatch⟩⟩ := locationIDFrame_spec b fr hb
      obtain ⟨hw2, he2, hs2, hlen2, hspec2⟩ := ih (locationIDFrame b fr).2 hw1
      have hred : resolveFrames b (fr :: rest) =
          ((locationIDFrame b fr).1 :: (resolveFrames (locationIDFrame b fr).2 rest).1,
           (resolveFrames (locationIDFrame b fr).2 rest).2) := rfl
      rw [hred]
      refine ⟨hw2, bext_trans he1 he2, by rw [hs2, hs1], by simpa using hlen2, ?_⟩
      intro j hj1 hj2
      cases j with
      | zero =>
          exact ⟨loc, bext_mem_locations he2 hm, hid,
            frameMatches_mono he2 hmatch⟩
      | succ j =>
          have hj1' : j < (resolveFrames (locationIDFrame b fr).2 rest).1.length := by
            simpa using hj1
          have hj2' : j < rest.length := by
            simpa using hj2
          obtain ⟨loc', hm', hid', hmatch'⟩ := hspec2 j hj1' hj2'
          exact ⟨loc', hm', hid', hmatch'⟩

/-! ### Sample recording -/

theorem addSample_samples (b : BuilderState) (locs : List Nat)
    (count weight attr : Int) :
    (AddSample b locs count weight attr).samples = b.samples ++
      [{ value := [count, weight], location_id := locs,
         label := sampleLabel attr }] := rfl

theorem addSample_wfb {b : BuilderState} (hb : WFB b) (locs : List Nat)
    (count weight attr : Int) :
    WFB (AddSample b locs count weight attr) :=
  wfb_congr hb rfl rfl rfl

theorem addSample_bext (b : BuilderState) (locs : List Nat)
    (count weight attr : Int) :
    BExt b (AddSample b locs count weight attr) :=
  ⟨⟨[], by simp [AddSample]⟩, ⟨[], by simp [AddSample]⟩,
   ⟨[], by simp [AddSample]⟩, ⟨[], by simp [AddSample]⟩⟩

theorem nonZeroTraces_nil : nonZeroTraces [] = [] := rfl

theorem nonZeroTraces_cons_pos {c : Int} (t : TraceKey)
    (rest : List (TraceKey × Int)) (hc : c ≠ 0) :
    nonZeroTraces ((t, c) :: rest) = (t, c) :: nonZeroTraces rest := by
  simp [nonZeroTraces, hc]

theorem nonZeroTraces_cons_zero {c : Int} (t : TraceKey)
    (rest : List (TraceKey × Int)) (hc : c = 0) :
    nonZeroTraces ((t, c) :: rest) = nonZeroTraces rest := by
  simp [nonZeroTraces, hc]

theorem sampleForTrace_mono {P P' : BuilderState} (hext : BExt P P')
    {p : Int} {tc : TraceKey × Int} {s : Sample}
    (h : sampleForTrace P p tc s) : sampleForTrace P' p tc s := by
  obtain ⟨h1, h2, h3, h4⟩ := h
  refine ⟨h1, h2, h3, fun j hj1 hj2 => ?_⟩
  obtain ⟨loc, hm, hid, hmatch⟩ := h4 j hj1 hj2
  exact ⟨loc, bext_mem_locations hext hm, hid, frameMatches_mono hext hmatch⟩

/-- `sampleForTrace` only consults the locations and function table. -/
theorem sampleForTrace_congr {P P' : BuilderState}
    (hloc : P'.locations = P.locations) (hfun : P'.functions = P.functions)
    {p : Int} {tc : TraceKey × Int} {s : Sample}
    (h : sampleForTrace P p tc s) : sampleForTrace P' p tc s := by
  obtain ⟨h1, h2, h3, h4⟩ := h
  refine ⟨h1, h2, h3, fun j hj1 hj2 => ?_⟩
  obtain ⟨loc, hm, hid, hmatch⟩ := h4 j hj1 hj2
  refine ⟨loc, by rw [hloc]; exact hm, hid, ?_⟩
  cases hfr : tc.1.frames.get ⟨j, hj2⟩ with
  | native a =>
      rw [hfr] at hmatch
      exact hmatch
  | managed c m s0 f l =>
      rw [hfr] at hmatch
      obtain ⟨fid, hf, hl⟩ := hmatch
      exact ⟨fid, by rw [hfun]; exact hf, hl⟩

theorem populateTraces_spec (traces : List (TraceKey × Int)) (b : BuilderState)
    (p : Int) (hb : WFB b) :
    WFB (populateTraces b traces p)
    ∧ BExt b (populateTraces b traces p)
    ∧ ∃ ss, (populateTraces b traces p).samples = b.samples ++ ss
        ∧ List.Forall₂ (sampleForTrace (populateTraces b traces p) p)
            (nonZeroTraces traces) ss := by
  induction traces generalizing b with
  | nil =>
      exact ⟨hb, bext_refl b, [], by simp [populateTraces],
        by rw [nonZeroTraces_nil]; exact List.Forall₂.nil⟩
  | cons tc rest ih =>
      rcases tc with ⟨t, c⟩
      by_cases hc : c ≠ 0
      · have hred : populateTraces b ((t, c) :: rest) p =
            populateTraces
              (AddSample (resolveFrames b t.frames).2 (resolveFrames b t.frames).1
                c (c * p) t.attr) rest p := by
          unfold populateTraces
          rw [if_pos hc]
          cases rest <;> rfl
        obtain ⟨hwrs, hers, hsrs, hlenrs, hspecrs⟩ := resolveFrames_spec b t.frames hb
        have hwb1 := addSample_wfb hwrs (resolveFrames b t.frames).1 c (c * p) t.attr
        have heb1 := addSample_bext (resolveFrames b t.frames).2
          (resolveFrames b t.frames).1 c (c * p) t.attr
        obtain ⟨hwp, hep, ss', hsamp', hfa'⟩ := ih
          (AddSample (resolveFrames b t.frames).2 (resolveFrames b t.frames).1
            c (c * p) t.attr) hwb1
        rw [hred]
        refine ⟨hwp, bext_trans (bext_trans hers heb1) hep, ?_⟩
        refine ⟨{ value := [c, c * p], location_id := (resolveFrames b t.frames).1,
                  label := sampleLabel t.attr } :: ss', ?_, ?_⟩
        · rw [hsamp', addSample_samples, hsrs]
          simp
        · rw [nonZeroTraces_cons_pos t rest hc]
          refine List.Forall₂.cons ?_ hfa'
          refine ⟨rfl, rfl, hlenrs, ?_⟩
          intro j hj1 hj2
          obtain ⟨loc, hm, hid, hmatch⟩ := hspecrs j hj1 hj2
          have hext : BExt (resolveFrames b t.frames).2
              (populateTraces (AddSample (resolveFrames b t.frames).2
                (resolveFrames b t.frames).1 c (c * p) t.attr) rest p) :=
            bext_trans heb1 hep
          exact ⟨loc, bext_mem_locations hext hm, hid, frameMatches_mono hext hmatch⟩
      · have hc0 : c = 0 := not_not.mp hc
        have hred : populateTraces b ((t, c) :: rest) p =
            populateTraces b rest p := by
          unfold populateTraces
          rw [if_neg hc]
          cases rest <;> rfl
        rw [hred, nonZeroTraces_cons_zero t rest hc0]
        exact ih b hb

/-! ### Populate decomposition and preservation -/

theorem addMappings_fields (ms : List NativeMapping) (b : BuilderState) :
    (addMappings b ms).samples = b.samples
    ∧ (addMappings b ms).locations = b.locations
    ∧ (addMappings b ms).functions = b.functions
    ∧ (addMappings b ms).line_map = b.line_map
    ∧ (addMappings b ms).address_location = b.address_location := by
  induction ms generalizing b with
  | nil => exact ⟨rfl, rfl, rfl, rfl, rfl⟩
  | cons m rest ih =>
      exact ih { b with mappings := b.mappings ++
        [{ id := b.mappings.length + 1, memory_start := m.start,
           memory_limit := m.limit, filename := m.name }] }

/-- The state after `Populate`, decomposed into its three phases: the header
assignments, the per-trace loop, the mapping loop. -/
theorem populate_eq (b : BuilderState) (profile_type : String)
    (traces : List (TraceKey × Int)) (duration_ns period_ns : Int)
    (maps : List NativeMapping) :
    Populate b profile_type traces duration_ns period_ns maps =
      addMappings
        (populateTraces
          { b with
              period_type := ⟨profile_type, "nanoseconds"⟩,
              period := period_ns,
              sample_type := b.sample_type ++
                [⟨"sample", "count"⟩, ⟨profile_type, "nanoseconds"⟩],
              duration_nanos := duration_ns }
          traces period_ns) maps := rfl

theorem locationIDLine_samples (fid : Nat) (b : BuilderState) (l : Int) :
    (locationIDLine fid b l).2.samples = b.samples := by
  rcases hl : lookupKey b.line_map (fid, l) with _ | v
  · rw [locationIDLine_none hl]
  · rw [locationIDLine_some hl]

theorem locationIDManaged_samples (b : BuilderState)
    (c m s f : String) (l : Int) :
    (locationIDManaged b c m s f l).2.samples = b.samples := by
  have hmeq : locationIDManaged b c m s f l =
      locationIDLine
        (functionId b (SimplifyFunctionName (frameName c m s)) (frameName c m s) f 0).1
        (functionId b (SimplifyFunctionName (frameName c m s)) (frameName c m s) f 0).2
        l := rfl
  rw [hmeq, locationIDLine_samples]
  exact (functionId_spec b (SimplifyFunctionName (frameName c m s))
    (frameName c m s) f 0).2.2.2.1

theorem applyEnc_spec (b : BuilderState) (op : EncOp) (hb : WFB b) :
    WFB (applyEnc b op) ∧ BExt b (applyEnc b op) := by
  cases op with
  | frame fr =>
      obtain ⟨h1, h2, _, _⟩ := locationIDFrame_spec b fr hb
      exact ⟨h1, h2⟩
  | artificial n c w a =>
      obtain ⟨h1, h2, _⟩ := locationIDManaged_spec b "" n "" "" 0 hb
      exact ⟨addSample_wfb h1 _ c w a,
        bext_trans h2 (addSample_bext _ _ c w a)⟩
  | sample ls c w a =>
      exact ⟨addSample_wfb hb ls c w a, addSample_bext b ls c w a⟩
  | populate pt ts d p ms =>
      have hbS : WFB { b with
          period_type := ⟨pt, "nanoseconds"⟩,
          period := p,
          sample_type := b.sample_type ++ [⟨"sample", "count"⟩, ⟨pt, "nanoseconds"⟩],
          duration_nanos := d } := wfb_congr hb rfl rfl rfl
      obtain ⟨h1, h2, _⟩ := populateTraces_spec ts _ p hbS
      obtain ⟨hm1, hm2, hm3, hm4, hm5⟩ := addMappings_fields ms
        (populateTraces { b with
          period_type := ⟨pt, "nanoseconds"⟩,
          period := p,
          sample_type := b.sample_type ++ [⟨"sample", "count"⟩, ⟨pt, "nanoseconds"⟩],
          duration_nanos := d } ts p)
      have happ : applyEnc b (.populate pt ts d p ms) =
          addMappings (populateTraces { b with
            period_type := ⟨pt, "nanoseconds"⟩,
            period := p,
            sample_type := b.sample_type ++ [⟨"sample", "count"⟩, ⟨pt, "nanoseconds"⟩],
            duration_nanos := d } ts p) ms := populate_eq b pt ts d p ms
      rw [happ]
      refine ⟨wfb_congr h1 hm2 hm5 hm4, ?_⟩
      have hextS : BExt b { b with
          period_type := ⟨pt, "nanoseconds"⟩,
          period := p,
          sample_type := b.sample_type ++ [⟨"sample", "count"⟩, ⟨pt, "nanoseconds"⟩],
          duration_nanos := d } :=
        ⟨⟨[], by simp⟩, ⟨[], by simp⟩, ⟨[], by simp⟩, ⟨[], by simp⟩⟩
      exact bext_trans (bext_trans hextS h2)
        ⟨⟨[], by rw [hm2, List.append_nil]⟩, ⟨[], by rw [hm3, List.append_nil]⟩,
         ⟨[], by rw [hm4, List.append_nil]⟩, ⟨[], by rw [hm5, List.append_nil]⟩⟩

theorem applyEncs_spec (ops : List EncOp) (b : BuilderState) (hb : WFB b) :
    WFB (applyEncs b ops) ∧ BExt b (applyEncs b ops) := by
  induction ops generalizing b with
  | nil => exact ⟨hb, bext_refl b⟩
  | cons op rest ih =>
      obtain ⟨h1, h2⟩ := applyEnc_spec b op hb
      obtain ⟨h3, h4⟩ := ih (applyEnc b op) h1
      exact ⟨h3, bext_trans h2 h4⟩

/-! ### Claim theorems for the profile proto builder -/

/-- C2: for every `(trace, count)` entry of the multiset passed to
`Populate`, if `count != 0` exactly one sample is recorded — in multiset
order — whose value vector is `[count, count * period_ns]`, whose label is
determined by the trace's attribute, and whose location-id sequence has one
id per frame of the trace in original order, each id naming a location of
the resulting profile that represents the corresponding frame; entries with
`count == 0` record no sample. -/
theorem populate_per_entry (profile_type : String) (traces : List (TraceKey × Int))
    (duration_ns period_ns : Int) (maps : List NativeMapping) :
    (Populate initialBuilder profile_type traces duration_ns period_ns maps).samples.length
      = (nonZeroTraces traces).length
    ∧ List.Forall₂
        (sampleForTrace
          (Populate initialBuilder profile_type traces duration_ns period_ns maps)
          period_ns)
        (nonZeroTraces traces)
        (Populate initialBuilder profile_type traces duration_ns period_ns maps).samples := by
  have hbS : WFB { initialBuilder with
      period_type := ⟨profile_type, "nanoseconds"⟩,
      period := period_ns,
      sample_type := initialBuilder.sample_type ++
        [⟨"sample", "count"⟩, ⟨profile_type, "nanoseconds"⟩],
      duration_nanos := duration_ns } := wfb_congr wfb_initial rfl rfl rfl
  obtain ⟨hw, hext, ss, hsamp, hfa⟩ := populateTraces_spec traces _ period_ns hbS
  obtain ⟨hm1, hm2, hm3, hm4, hm5⟩ := addMappings_fields maps
    (populateTraces { initialBuilder with
      period_type := ⟨profile_type, "nanoseconds"⟩,
      period := period_ns,
      sample_type := initialBuilder.sample_type ++
        [⟨"sample", "count"⟩, ⟨profile_type, "nanoseconds"⟩],
      duration_nanos := duration_ns } traces period_ns)
  rw [populate_eq initialBuilder profile_type traces duration_ns period_ns maps]
  have hsamp2 : (addMappings
      (populateTraces { initialBuilder with
        period_type := ⟨profile_type, "nanoseconds"⟩,
        period := period_ns,
        sample_type := initialBuilder.sample_type ++
          [⟨"sample", "count"⟩, ⟨profile_type, "nanoseconds"⟩],
        duration_nanos := duration_ns } traces period_ns) maps).samples = ss := by
    rw [hm1, hsamp]
    rfl
  rw [hsamp2]
  exact ⟨(List.Forall₂.length_eq hfa).symm,
    List.Forall₂.imp (fun tc s h => sampleForTrace_congr hm2 hm3 h) hfa⟩

/-- Witness for C2: a concrete two-frame trace with count 3 yields exactly
one sample. -/
theorem populate_per_entry_witness :
    (Populate initialBuilder "cpu"
        [(⟨[RawFrame.native 4096,
            RawFrame.managed "com.Foo" "bar" "(I)V" "Foo.java" 7], 0⟩, 3)]
        1000 1000000 []).samples.length
      = (nonZeroTraces
          [(⟨[RawFrame.native 4096,
              RawFrame.managed "com.Foo" "bar" "(I)V" "Foo.java" 7], 0⟩, 3)]).length :=
  (populate_per_entry "cpu"
    [(⟨[RawFrame.native 4096,
        RawFrame.managed "com.Foo" "bar" "(I)V" "Foo.java" 7], 0⟩, 3)]
    1000 1000000 []).1

/-- C3: within one encoder instance (states reachable by encoder operations
from the fresh builder), resolving a managed frame with the same
`(class, method, signature, file, line)` again — after any further
operations — yields the same Location id; resolving with only the line
changed yields a distinct Location id, and both locations carry the same
Function id. -/
theorem managed_location_dedup (ops mid : List EncOp) (c m s f : String)
    (l l' : Int) (b0 r1s b2 : BuilderState) (r1 : Nat)
    (hb0 : b0 = applyEncs initialBuilder ops)
    (hr1 : r1 = (locationIDManaged b0 c m s f l).1)
    (hr1s : r1s = (locationIDManaged b0 c m s f l).2)
    (hb2 : b2 = applyEncs r1s mid) :
    (locationIDManaged b2 c m s f l).1 = r1
    ∧ (l' ≠ l → (locationIDManaged b2 c m s f l').1 ≠ r1)
    ∧ ∃ fid, lookupKey b2.functions (managedFunctionKey c m s f) = some fid
        ∧ (∃ loc ∈ b2.locations, loc.id = r1
            ∧ loc.line = [{ function_id := fid, line := l }])
        ∧ (∃ loc ∈ (locationIDManaged b2 c m s f l').2.locations,
            loc.id = (locationIDManaged b2 c m s f l').1
            ∧ loc.line = [{ function_id := fid, line := l' }]) := by
  have hw0 : WFB b0 := by
    rw [hb0]
    exact (applyEncs_spec ops initialBuilder wfb_initial).1
  obtain ⟨hw1, he1, _, _, ⟨fid, hf1, hlm1, loc1, hm1, hid1, hline1⟩, _⟩ :=
    locationIDManaged_spec b0 c m s f l hw0
  rw [← hr1s] at hw1 hf1 hlm1 hm1
  rw [← hr1] at hlm1 hid1
  obtain ⟨hw2, he2⟩ := applyEncs_spec mid r1s hw1
  rw [← hb2] at hw2 he2
  have hf2 : lookupKey b2.functions (managedFunctionKey c m s f) = some fid :=
    bext_lookup_functions he2 hf1
  have hlm2 : lookupKey b2.line_map (fid, l) = some r1 :=
    bext_lookup_line_map he2 hlm1
  have hf2e : lookupKey b2.functions
      (⟨SimplifyFunctionName (frameName c m s), frameName c m s, f, 0⟩ : FunctionKey)
      = some fid := hf2
  have hman : locationIDManaged b2 c m s f l = (r1, b2) := by
    unfold locationIDManaged
    rw [functionId_some hf2e]
    exact locationIDLine_some hlm2
  have hman' : locationIDManaged b2 c m s f l' = locationIDLine fid b2 l' := by
    unfold locationIDManaged
    rw [functionId_some hf2e]
  obtain ⟨hw3, he3, _, _, _, _, ⟨loc', hm', hid', hline'⟩, _, _⟩ :=
    locationIDLine_spec fid b2 l' hw2
  have hm1b2 : loc1 ∈ b2.locations := bext_mem_locations he2 hm1
  refine ⟨by rw [hman], ?_, ?_⟩
  · intro hll heq
    rw [hman'] at heq
    have hm1c : loc1 ∈ (locationIDLine fid b2 l').2.locations :=
      bext_mem_locations he3 hm1b2
    have heqloc : loc' = loc1 := loc_unique hw3 hm' hm1c (by rw [hid', heq, hid1])
    rw [heqloc, hline1] at hline'
    simp only [List.cons.injEq, ProtoLine.mk.injEq] at hline'
    exact hll hline'.1.2.symm
  · refine ⟨fid, hf2, ⟨loc1, hm1b2, hid1, hline1⟩, ?_⟩
    rw [hman']
    exact ⟨loc', hm', hid', hline'⟩

/-- Witness for C3: re-resolving the same managed frame immediately returns
the same id. -/
theorem managed_location_dedup_witness :
    (locationIDManaged (applyEncs (locationIDManaged (applyEncs initialBuilder [])
        "com.Foo" "bar" "(I)V" "Foo.java" 7).2 []) "com.Foo" "bar" "(I)V" "Foo.java" 7).1
      = (locationIDManaged (applyEncs initialBuilder [])
          "com.Foo" "bar" "(I)V" "Foo.java" 7).1 :=
  (managed_location_dedup [] [] "com.Foo" "bar" "(I)V" "Foo.java" 7 9
    (applyEncs initialBuilder [])
    (locationIDManaged (applyEncs initialBuilder [])
      "com.Foo" "bar" "(I)V" "Foo.java" 7).2
    (applyEncs (locationIDManaged (applyEncs initialBuilder [])
      "com.Foo" "bar" "(I)V" "Foo.java" 7).2 [])
    (locationIDManaged (applyEncs initialBuilder [])
      "com.Foo" "bar" "(I)V" "Foo.java" 7).1
    rfl rfl rfl rfl).1

/-- C5: within one encoder instance, resolving the same raw address again
— after any further operations — yields the same Location id; resolving a
different address yields a distinct Location id; and a managed-frame
resolution never yields the id of a native (address-keyed) location. -/
theorem native_location_dedup (ops mid : List EncOp) (a a' : Nat)
    (c m s f : String) (l : Int) (b0 r1s b2 : BuilderState) (r1 : Nat)
    (hb0 : b0 = applyEncs initialBuilder ops)
    (hr1 : r1 = (locationIDAddress b0 a).1)
    (hr1s : r1s = (locationIDAddress b0 a).2)
    (hb2 : b2 = applyEncs r1s mid) :
    (locationIDAddress b2 a).1 = r1
    ∧ (a' ≠ a → (locationIDAddress b2 a').1 ≠ r1)
    ∧ (locationIDManaged b2 c m s f l).1 ≠ r1 := by
  have hw0 : WFB b0 := by
    rw [hb0]
    exact (applyEncs_spec ops initialBuilder wfb_initial).1
  obtain ⟨hw1, he1, _, _, _, hlook1, ⟨loc1, hm1, hid1, haddr1, hline1⟩, _, _⟩ :=
    locationIDAddress_spec b0 a hw0
  rw [← hr1s] at hw1 hlook1 hm1
  rw [← hr1] at hlook1 hid1
  obtain ⟨hw2, he2⟩ := applyEncs_spec mid r1s hw1
  rw [← hb2] at hw2 he2
  have hlook2 : lookupKey b2.address_location a = some r1 :=
    bext_lookup_address he2 hlook1
  have hpos : r1 ≠ 0 := by
    have := id_pos_of_mem hw1 hm1
    exact Nat.pos_iff_ne_zero.mp (hid1 ▸ this)
  have hm1b2 : loc1 ∈ b2.locations := bext_mem_locations he2 hm1
  refine ⟨by rw [locationIDAddress_some hlook2 hpos], ?_, ?_⟩
  · intro haa heq
    obtain ⟨hw3, he3, _, _, _, _, ⟨loc', hm', hid', haddr', hline'⟩, _, _⟩ :=
      locationIDAddress_spec b2 a' hw2
    have hm1c : loc1 ∈ (locationIDAddress b2 a').2.locations :=
      bext_mem_locations he3 hm1b2
    have heqloc : loc' = loc1 := loc_unique hw3 hm' hm1c (by rw [hid', heq, hid1])
    rw [heqloc, haddr1] at haddr'
    exact haa haddr'.symm
  · intro heq
    obtain ⟨hw3, he3, _, _, ⟨fid, hf, hlm, loc3, hm3, hid3, hline3⟩, _⟩ :=
      locationIDManaged_spec b2 c m s f l hw2
    have hm1c : loc1 ∈ (locationIDManaged b2 c m s f l).2.locations :=
      bext_mem_locations he3 hm1b2
    have heqloc : loc3 = loc1 := loc_unique hw3 hm3 hm1c (by rw [hid3, heq, hid1])
    rw [heqloc, hline1] at hline3
    cases hline3

/-- Witness for C5: re-resolving the same raw address immediately returns
the same id. -/
theorem native_location_dedup_witness :
    (locationIDAddress (applyEncs (locationIDAddress (applyEncs initialBuilder [])
        4096).2 []) 4096).1
      = (locationIDAddress (applyEncs initialBuilder []) 4096).1 :=
  (native_location_dedup [] [] 4096 8192 "com.Foo" "bar" "(I)V" "Foo.java" 7
    (applyEncs initialBuilder [])
    (locationIDAddress (applyEncs initialBuilder []) 4096).2
    (applyEncs (locationIDAddress (applyEncs initialBuilder []) 4096).2 [])
    (locationIDAddress (applyEncs initialBuilder []) 4096).1
    rfl rfl rfl rfl).1

/-- C4: in every state of one encoder instance, the `k`-th created Location
has id `k + 1` (so the assigned ids are exactly `{1, ..., N}`); a native
resolution of an unseen address and a managed resolution of an unseen
`(function id, line)` key both create the next id `location_size() + 1`;
and an id recorded for a dedup key never changes over any further
operations of the instance. -/
theorem location_id_assignment (ops more : List EncOp) :
    (∀ k (hk : k < (applyEncs initialBuilder ops).locations.length),
        ((applyEncs initialBuilder ops).locations.get ⟨k, hk⟩).id = k + 1)
    ∧ (∀ i : Nat,
        (∃ loc ∈ (applyEncs initialBuilder ops).locations, loc.id = i)
          ↔ (1 ≤ i ∧ i ≤ (applyEncs initialBuilder ops).locations.length))
    ∧ (∀ a, lookupKey (applyEncs initialBuilder ops).address_location a = none →
        (locationIDAddress (applyEncs initialBuilder ops) a).1
          = (applyEncs initialBuilder ops).locations.length + 1
        ∧ (locationIDAddress (applyEncs initialBuilder ops) a).2.locations.length
          = (applyEncs initialBuilder ops).locations.length + 1)
    ∧ (∀ (c m s f : String) (l : Int),
        lookupKey (functionId (applyEncs initialBuilder ops)
            (SimplifyFunctionName (frameName c m s)) (frameName c m s) f 0).2.line_map
          ((functionId (applyEncs initialBuilder ops)
            (SimplifyFunctionName (frameName c m s)) (frameName c m s) f 0).1, l)
          = none →
        (locationIDManaged (applyEncs initialBuilder ops) c m s f l).1
          = (applyEncs initialBuilder ops).locations.length + 1)
    ∧ (∀ a v,
        lookupKey (applyEncs initialBuilder ops).address_location a = some v →
        lookupKey (applyEncs (applyEncs initialBuilder ops) more).address_location a
          = some v)
    ∧ (∀ (key : Nat × Int) (v : Nat),
        lookupKey (applyEncs initialBuilder ops).line_map key = some v →
        lookupKey (applyEncs (applyEncs initialBuilder ops) more).line_map key
          = some v) := by
  have hw0 : WFB (applyEncs initialBuilder ops) :=
    (applyEncs_spec ops initialBuilder wfb_initial).1
  have hext : BExt (applyEncs initialBuilder ops)
      (applyEncs (applyEncs initialBuilder ops) more) :=
    (applyEncs_spec more (applyEncs initialBuilder ops) hw0).2
  refine ⟨hw0.dense, ?_, ?_, ?_, fun a v h => bext_lookup_address hext h,
    fun key v h => bext_lookup_line_map hext h⟩
  · intro i
    constructor
    · rintro ⟨loc, hm, hid⟩
      obtain ⟨⟨k, hk⟩, hget⟩ := List.mem_iff_get.mp hm
      have := hw0.dense k hk
      rw [hget, hid] at this
      rw [this]
      exact ⟨Nat.succ_le_succ (Nat.zero_le k), hk⟩
    · rintro ⟨h1, h2⟩
      have hipos : 0 < i := h1
      have hk : i - 1 < (applyEncs initialBuilder ops).locations.length :=
        Nat.lt_of_lt_of_le (Nat.sub_lt hipos Nat.zero_lt_one) h2
      refine ⟨(applyEncs initialBuilder ops).locations.get ⟨i - 1, hk⟩,
        List.get_mem _ _ _, ?_⟩
      have := hw0.dense (i - 1) hk
      rw [this]
      exact Nat.sub_add_cancel h1
  · intro a h
    rw [locationIDAddress_none h]
    exact ⟨rfl, by simp⟩
  · intro c m s f l h
    have hfl : (functionId (applyEncs initialBuilder ops)
        (SimplifyFunctionName (frameName c m s)) (frameName c m s) f 0).2.locations
        = (applyEncs initialBuilder ops).locations :=
      (functionId_spec (applyEncs initialBuilder ops)
        (SimplifyFunctionName (frameName c m s)) (frameName c m s) f 0).1
    have hmeq : locationIDManaged (applyEncs initialBuilder ops) c m s f l =
        locationIDLine
          (functionId (applyEncs initialBuilder ops)
            (SimplifyFunctionName (frameName c m s)) (frameName c m s) f 0).1
          (functionId (applyEncs initialBuilder ops)
            (SimplifyFunctionName (frameName c m s)) (frameName c m s) f 0).2
          l := rfl
    rw [hmeq, locationIDLine_none h]
    simp only
    rw [hfl]

/-- Witness for C4: in the fresh instance, the first native resolution of an
unseen address creates id 1. -/
theorem location_id_assignment_witness :
    (locationIDAddress (applyEncs initialBuilder []) 4096).1
      = (applyEncs initialBuilder []).locations.length + 1 :=
  ((location_id_assignment [] []).2.2.1 4096 rfl).1

/-- C7: `AddSample` attaches a label (key `"attr"`, value `attr`) exactly
when `attr != 0`; in particular `AddArtificialSample(name, count, weight, 0)`
records one sample with no label, values `[count, weight]`, and a single
location whose line record points at the synthetic function keyed by the
given name with empty class, signature and file, at line 0. -/
theorem sample_label_iff_attr (b : BuilderState) (locs : List Nat)
    (count weight attr : Int) (name : String) (cnt2 wt2 : Int) (hb : WFB b) :
    ((AddSample b locs count weight attr).samples = b.samples ++
        [{ value := [count, weight], location_id := locs,
           label := sampleLabel attr }])
    ∧ (sampleLabel attr = [] ↔ attr = 0)
    ∧ (attr ≠ 0 → sampleLabel attr = [{ key := "attr", str := attr }])
    ∧ (∃ s lid fid,
        (AddArtificialSample b name cnt2 wt2 0).samples = b.samples ++ [s]
        ∧ s.label = [] ∧ s.value = [cnt2, wt2] ∧ s.location_id = [lid]
        ∧ lookupKey (AddArtificialSample b name cnt2 wt2 0).functions
            (managedFunctionKey "" name "" "") = some fid
        ∧ ∃ loc ∈ (AddArtificialSample b name cnt2 wt2 0).locations,
            loc.id = lid ∧ loc.line = [{ function_id := fid, line := 0 }]) := by
  refine ⟨addSample_samples b locs count weight attr, ?_, ?_, ?_⟩
  · unfold sampleLabel
    by_cases h : attr = 0
    · simp [h]
    · simp [h]
  · intro h
    unfold sampleLabel
    rw [if_pos h]
  · obtain ⟨_, _, hs, _, ⟨fid, hf, hlm, loc, hm, hid, hline⟩, _⟩ :=
      locationIDManaged_spec b "" name "" "" 0 hb
    have hA : AddArtificialSample b name cnt2 wt2 0
        = AddSample (locationIDManaged b "" name "" "" 0).2
            [(locationIDManaged b "" name "" "" 0).1] cnt2 wt2 0 := rfl
    refine ⟨{ value := [cnt2, wt2],
              location_id := [(locationIDManaged b "" name "" "" 0).1],
              label := sampleLabel 0 },
            (locationIDManaged b "" name "" "" 0).1, fid, ?_, ?_, rfl, rfl, ?_, ?_⟩
    · rw [hA, addSample_samples, hs]
    · rfl
    · rw [hA]
      exact hf
    · rw [hA]
      exact ⟨loc, hm, hid, hline⟩

/-- Witness for C7 at a concrete builder state and sample. -/
theorem sample_label_iff_attr_witness :
    (AddSample initialBuilder [1] 3 300 42).samples = initialBuilder.samples ++
      [{ value := [3, 300], location_id := [1], label := sampleLabel 42 }] :=
  (sample_label_iff_attr initialBuilder [1] 3 300 42 "gc-time" 5 500000
    wfb_initial).1

theorem artificial_fold_samples (extras : List FrameCount) (b : BuilderState)
    (per : Int) :
    ∃ arts,
      (extras.foldl
        (fun b2 f => AddArtificialSample b2 f.name f.value (f.value * per) 0)
        b).samples = b.samples ++ arts
      ∧ arts.length = extras.length
      ∧ ∀ s ∈ arts, s.label = [] := by
  induction extras generalizing b with
  | nil => exact ⟨[], by simp, rfl, by simp⟩
  | cons f rest ih =>
      obtain ⟨arts, h1, h2, h3⟩ :=
        ih (AddArtificialSample b f.name f.value (f.value * per) 0)
      have hA : (AddArtificialSample b f.name f.value (f.value * per) 0).samples
          = b.samples ++
            [{ value := [f.value, f.value * per],
               location_id := [(locationIDManaged b "" f.name "" "" 0).1],
               label := sampleLabel 0 }] := by
        have he : AddArtificialSample b f.name f.value (f.value * per) 0
            = AddSample (locationIDManaged b "" f.name "" "" 0).2
                [(locationIDManaged b "" f.name "" "" 0).1]
                f.value (f.value * per) 0 := rfl
        rw [he, addSample_samples, locationIDManaged_samples]
      refine ⟨{ value := [f.value, f.value * per],
                location_id := [(locationIDManaged b "" f.name "" "" 0).1],
                label := sampleLabel 0 } :: arts, ?_, by simp [h2], ?_⟩
      · rw [List.foldl_cons, h1, hA]
        simp
      · intro s hs
        rcases List.mem_cons.mp hs with h | h
        · rw [h]
          rfl
        · exact h3 s h

/-- C8: `SerializeAndClearJavaCpuTraces` builds one encoder, populates it
with the trace multiset, then adds exactly one label-free artificial sample
per extra synthetic counter, clears the source multiset (the returned
multiset is empty), and returns the emitted content of that populated
builder. -/
theorem serializeAndClearJavaCpuTraces_spec (maps : List NativeMapping)
    (profile_type : String) (extras : List FrameCount) (dur per : Int)
    (traces : List (TraceKey × Int)) :
    (SerializeAndClearJavaCpuTraces maps profile_type extras dur per traces).2 = []
    ∧ (SerializeAndClearJavaCpuTraces maps profile_type extras dur per traces).1
        = Emit (extras.foldl
            (fun b f => AddArtificialSample b f.name f.value (f.value * per) 0)
            (Populate initialBuilder profile_type traces dur per maps))
    ∧ ∃ arts,
        (SerializeAndClearJavaCpuTraces maps profile_type extras dur per traces).1.sample
          = (Populate initialBuilder profile_type traces dur per maps).samples ++ arts
        ∧ arts.length = extras.length
        ∧ (∀ s ∈ arts, s.label = [])
        ∧ (Populate initialBuilder profile_type traces dur per maps).samples.length
            = (nonZeroTraces traces).length := by
  refine ⟨rfl, rfl, ?_⟩
  obtain ⟨arts, h1, h2, h3⟩ := artificial_fold_samples extras
    (Populate initialBuilder profile_type traces dur per maps) per
  refine ⟨arts, h1, h2, h3, ?_⟩
  have hbS : WFB { initialBuilder with
      period_type := ⟨profile_type, "nanoseconds"⟩,
      period := per,
      sample_type := initialBuilder.sample_type ++
        [⟨"sample", "count"⟩, ⟨profile_type, "nanoseconds"⟩],
      duration_nanos := dur } := wfb_congr wfb_initial rfl rfl rfl
  obtain ⟨hw, hext, ss, hsamp, hfa⟩ := populateTraces_spec traces _ per hbS
  obtain ⟨hm1, _, _, _, _⟩ := addMappings_fields maps
    (populateTraces { initialBuilder with
      period_type := ⟨profile_type, "nanoseconds"⟩,
      period := per,
      sample_type := initialBuilder.sample_type ++
        [⟨"sample", "count"⟩, ⟨profile_type, "nanoseconds"⟩],
      duration_nanos := dur } traces per)
  have hps : (Populate initialBuilder profile_type traces dur per maps).samples = ss := by
    rw [populate_eq initialBuilder profile_type traces dur per maps, hm1, hsamp]
    rfl
  rw [hps]
  exact (List.Forall₂.length_eq hfa).symm

/-- Witness for C8: calling the driver at a concrete input returns an empty
trace multiset. -/
theorem serializeAndClearJavaCpuTraces_spec_witness :
    (SerializeAndClearJavaCpuTraces [] "cpu" [⟨"gc-time", 5⟩] 1000 1000000
      [(⟨[RawFrame.native 4096], 0⟩, 2)]).2 = [] :=
  (serializeAndClearJavaCpuTraces_spec [] "cpu" [⟨"gc-time", 5⟩] 1000 1000000
    [(⟨[RawFrame.native 4096], 0⟩, 2)]).1

end CloudProfiler

